import Mathlib

/-!
Shallow embedding of the ChatterBox realtime presence and fanout core
(the WebSocket connection-handling block of the server: the `clients`
registry, `broadcast`, the `ws.on('message')` dispatcher and the
`ws.on('close')` cleanup handler), together with proofs of the spec's
claims about it.

Conventions of the embedding:
- A user identity is a `String`, a transport session handle is a `Nat`.
- The JS `Map<string, WebSocket[]>` named `clients` is an association
  list with JS `Map` semantics (`mapGet`, `mapSet`, `mapDelete`).
- `ws.readyState === WebSocket.OPEN` is a predicate `isOpen` on session
  handles, fixed for the duration of one handler turn (the scheduling
  model is single-threaded cooperative, so this is faithful).
- External collaborators (token verification, user lookup, conversation
  store, message store) are a record of pure functions `Env`, mirroring
  the collaborator interfaces the server imports.
- A handler returns the new registry, the new per-connection state, the
  list of sends it attempted (session handle paired with the outbound
  event whose serialization is written to that session), and the list of
  external side effects it invoked. The handler is a total function and
  performs no transport close: the source handler never calls ws.close
  and wraps its body in try/catch, so no inbound payload tears down the
  connection.
-/

namespace ChatterBox

abbrev UserId := String

abbrev SessionId := Nat

/-- The connected-clients map `Map<string, WebSocket[]>`, as an association
list from user identity to that user's list of session handles. -/
abbrev Registry := List (UserId × List SessionId)

/-- JS `Map.get`: the value stored at the first (only) entry for the key. -/
def mapGet : Registry → UserId → Option (List SessionId)
  | [], _ => none
  | (k, v) :: rest, key => if k = key then some v else mapGet rest key

/-- JS `Map.set`: replace the value at an existing key in place, else append
a new entry at the end (JS maps preserve insertion order). -/
def mapSet : Registry → UserId → List SessionId → Registry
  | [], key, v => [(key, v)]
  | (k, w) :: rest, key, v =>
      if k = key then (key, v) :: rest else (k, w) :: mapSet rest key v

/-- JS `Map.delete`: remove the entry for the key, if any. -/
def mapDelete : Registry → UserId → Registry
  | [], _ => []
  | (k, v) :: rest, key => if k = key then rest else (k, v) :: mapDelete rest key

/-- The `indexOf` / `splice(index, 1)` idiom of the close handler: remove the
first occurrence of a session handle, leave the list unchanged when the
handle is absent (indexOf returns -1 and the splice is skipped). -/
def removeFirst : List SessionId → SessionId → List SessionId
  | [], _ => []
  | x :: xs, s => if x = s then xs else x :: removeFirst xs s

/-- isOnline in the spec's sense: key existence in the registry. -/
def isOnline (reg : Registry) (u : UserId) : Bool :=
  (mapGet reg u).isSome

/-- The projection of the server's User record used by the core. -/
structure User where
  id : String
  displayName : String
deriving DecidableEq, Repr

/-- The projection of the persisted Message record used by the core. -/
structure Message where
  id : String
  conversationId : String
  senderId : String
  content : String
deriving DecidableEq, Repr

/-- The external collaborators the connection handler imports:
verifyToken from the auth module ({valid, userId} as an Option),
getUserById, getUserConversations (projected to each conversation's
member-identity list), getConversationMembers and sendMessage from the
conversation module. -/
structure Env where
  verifyToken : String → Option UserId
  getUserById : UserId → Option User
  userConversations : UserId → List (List UserId)
  conversationMembers : String → List UserId
  sendMessage : String → UserId → String → String → Option String →
      Option String → Option Message

/-- The outbound tagged payloads the connection handler constructs. -/
inductive OutEvent where
  | authSuccess (user : Option User)
  | authError (error : String)
  | errorEvent (error : String)
  | newMessage (message : Message)
  | typingEvent (conversationId : String) (userId : UserId)
      (userName : Option String) (isTyping : Bool)
  | userStatus (userId : UserId) (status : String)
  | pong
deriving DecidableEq, Repr

/-- The value of the type field the serializer writes for each event. -/
def outTag : OutEvent → String
  | .authSuccess _ => "auth_success"
  | .authError _ => "auth_error"
  | .errorEvent _ => "error"
  | .newMessage _ => "new_message"
  | .typingEvent _ _ _ _ => "typing"
  | .userStatus _ _ => "user_status"
  | .pong => "pong"

/-- JSON.stringify of an outbound event, restricted to the fields the
embedding carries. The exact rendering is irrelevant to every claim; what
matters is that serialization is a pure function of the event, so equal
events yield byte-identical payloads. -/
def serializeOut (ev : OutEvent) : String :=
  "\x7b\"type\":\"" ++ outTag ev ++ "\"" ++
    (match ev with
     | .authSuccess u =>
         ",\"user\":" ++ (match u with
           | some usr => "\"" ++ usr.id ++ "\""
           | none => "null")
     | .authError e => ",\"error\":\"" ++ e ++ "\""
     | .errorEvent e => ",\"error\":\"" ++ e ++ "\""
     | .newMessage m => ",\"message\":\"" ++ m.id ++ "\""
     | .typingEvent cid uid un ty =>
         ",\"conversationId\":\"" ++ cid ++ "\",\"userId\":\"" ++ uid ++
           "\",\"userName\":" ++ (match un with
             | some n => "\"" ++ n ++ "\""
             | none => "null") ++
           ",\"isTyping\":" ++ (if ty then "true" else "false")
     | .userStatus uid st =>
         ",\"userId\":\"" ++ uid ++ "\",\"status\":\"" ++ st ++ "\""
     | .pong => "") ++ "\x7d"

/-- One attempted delivery: the target session handle and the outbound
event whose serialization is written to it. -/
abbrev Send := SessionId × OutEvent

/-- The broadcast function: serialize the event once, then for every
recipient identity look up its live sessions and write the payload to each
session whose transport is currently open; absent identities and closed
sessions are skipped silently. -/
def broadcast (reg : Registry) (isOpen : SessionId → Bool)
    (userIds : List UserId) (ev : OutEvent) : List Send :=
  userIds.flatMap (fun userId =>
    match mapGet reg userId with
    | some userClients => (userClients.filter isOpen).map (fun ws => (ws, ev))
    | none => [])

/-- The per-connection closure state of wss.on('connection'): the
authenticated flag and currentUserId. -/
structure ConnState where
  authenticated : Bool
  currentUserId : Option UserId
deriving DecidableEq, Repr

/-- The decoded inbound payload: the four recognized tags with the fields
the handler destructures, plus unknownTag (JSON parsed but the type tag
matches no case of the switch, including a missing type field) and
malformed (JSON.parse throws and the try/catch swallows it). -/
inductive InMsg where
  | auth (token : String)
  | message (conversationId : String) (content : String)
      (messageType : Option String) (fileUrl : Option String)
      (fileName : Option String)
  | typing (conversationId : String) (isTyping : Bool)
  | ping
  | unknownTag
  | malformed
deriving DecidableEq, Repr

/-- The external side effects a handler turn invokes on collaborators. -/
inductive Effect where
  | updateUserStatus (userId : UserId) (status : String)
  | persistMessage (conversationId : String) (senderId : UserId)
      (content : String) (messageType : String) (fileUrl : Option String)
      (fileName : Option String)
deriving DecidableEq, Repr

/-- messageType || 'text': the JS falsy default (undefined or the empty
string fall back to "text"). -/
def jsOrText : Option String → String
  | some t => if t = "" then "text" else t
  | none => "text"

/-- The JS Set built by the presence code: append-if-absent, preserving
insertion order and deduplicating. -/
def setAdd (l : List UserId) (x : UserId) : List UserId :=
  if x ∈ l then l else l ++ [x]

/-- The inner loop of the audience computation: add every member of one
conversation other than the affected user to the accumulating set. -/
def addConvMembers (u : UserId) (acc : List UserId)
    (conv : List UserId) : List UserId :=
  conv.foldl (fun acc2 m => if m ≠ u then setAdd acc2 m else acc2) acc

/-- The friendIds computation shared by the auth case and the close
handler: iterate over every conversation the user belongs to and collect
every other member into a Set. -/
def presenceAudience (env : Env) (u : UserId) : List UserId :=
  (env.userConversations u).foldl (addConvMembers u) []

/-- The registry mutation of the successful-auth branch:
clients.get(userId) || [], push ws, clients.set(userId, list). -/
def addSession (reg : Registry) (userId : UserId) (ws : SessionId) : Registry :=
  mapSet reg userId (((mapGet reg userId).getD []) ++ [ws])

/-- The registry mutation of the close handler: look up the user's list,
splice out the first occurrence of ws if present, then delete the entry
when the list is empty and store it back otherwise. -/
def removeSession (reg : Registry) (userId : UserId) (ws : SessionId) : Registry :=
  match mapGet reg userId with
  | none => reg
  | some userClients =>
      let remaining := removeFirst userClients ws
      if remaining.length = 0 then mapDelete reg userId
      else mapSet reg userId remaining

/-- The result of one turn of the ws.on('message') handler. -/
structure HandlerResult where
  registry : Registry
  conn : ConnState
  sends : List Send
  effects : List Effect
deriving DecidableEq, Repr

/-- One turn of the ws.on('message') handler: decode the payload and
dispatch on its tag exactly as the switch does. malformed corresponds to
the try/catch swallowing a parse error; unknownTag to the switch falling
through with no default case. -/
def handleMessage (env : Env) (reg : Registry) (conn : ConnState)
    (ws : SessionId) (isOpen : SessionId → Bool) (msg : InMsg) : HandlerResult :=
  match msg with
  | .auth token =>
      match env.verifyToken token with
      | some userId =>
          let conn2 : ConnState := { authenticated := true, currentUserId := some userId }
          let reg2 := addSession reg userId ws
          let friendIds := presenceAudience env userId
          { registry := reg2
            conn := conn2
            sends := (ws, OutEvent.authSuccess (env.getUserById userId)) ::
              broadcast reg2 isOpen friendIds (OutEvent.userStatus userId "online")
            effects := [Effect.updateUserStatus userId "online"] }
      | none =>
          { registry := reg, conn := conn
            sends := [(ws, OutEvent.authError "Invalid token")]
            effects := [] }
  | .message conversationId content messageType fileUrl fileName =>
      match conn.authenticated, conn.currentUserId with
      | true, some senderId =>
          let mt := jsOrText messageType
          let res := env.sendMessage conversationId senderId content mt fileUrl fileName
          let effs := [Effect.persistMessage conversationId senderId content mt fileUrl fileName]
          match res with
          | some m =>
              { registry := reg, conn := conn
                sends := broadcast reg isOpen (env.conversationMembers conversationId)
                  (OutEvent.newMessage m)
                effects := effs }
          | none =>
              { registry := reg, conn := conn, sends := [], effects := effs }
      | _, _ =>
          { registry := reg, conn := conn
            sends := [(ws, OutEvent.errorEvent "Not authenticated")]
            effects := [] }
  | .typing conversationId isTyping =>
      match conn.authenticated, conn.currentUserId with
      | true, some senderId =>
          let user := env.getUserById senderId
          let memberIds := env.conversationMembers conversationId
          { registry := reg, conn := conn
            sends := broadcast reg isOpen (memberIds.filter (fun id => id != senderId))
              (OutEvent.typingEvent conversationId senderId
                (user.map User.displayName) isTyping)
            effects := [] }
      | _, _ =>
          { registry := reg, conn := conn, sends := [], effects := [] }
  | .ping =>
      { registry := reg, conn := conn, sends := [(ws, OutEvent.pong)], effects := [] }
  | .unknownTag =>
      { registry := reg, conn := conn, sends := [], effects := [] }
  | .malformed =>
      { registry := reg, conn := conn, sends := [], effects := [] }

/-- The result of the ws.on('close') handler (the connection closure state
is not consulted afterwards, so only the registry and outputs are kept). -/
structure CloseResult where
  registry : Registry
  sends : List Send
  effects : List Effect
deriving DecidableEq, Repr

/-- The ws.on('close') handler: when the connection was bound to a user,
splice this session out of that user's list; when the list becomes empty,
delete the entry, record the offline status write, and broadcast the
offline presence event to the recomputed audience (reading the registry
after the deletion, as the source's global map read does). -/
def handleClose (env : Env) (reg : Registry) (conn : ConnState)
    (ws : SessionId) (isOpen : SessionId → Bool) : CloseResult :=
  match conn.currentUserId with
  | none => { registry := reg, sends := [], effects := [] }
  | some userId =>
      match mapGet reg userId with
      | none => { registry := reg, sends := [], effects := [] }
      | some userClients =>
          let remaining := removeFirst userClients ws
          if remaining.length = 0 then
            let reg2 := mapDelete reg userId
            { registry := reg2
              sends := broadcast reg2 isOpen (presenceAudience env userId)
                (OutEvent.userStatus userId "offline")
              effects := [Effect.updateUserStatus userId "offline"] }
          else
            { registry := mapSet reg userId remaining, sends := [], effects := [] }

/-! Basic lemmas about the JS Map operations. -/

/-- The keys of the registry are pairwise distinct; JS Map semantics
guarantees this for the source's clients map. -/
def keysNodup (reg : Registry) : Prop := (reg.map Prod.fst).Nodup

theorem mapGet_mapSet_self (m : Registry) (k : UserId) (v : List SessionId) :
    mapGet (mapSet m k v) k = some v := by
  induction m with
  | nil => simp [mapSet, mapGet]
  | cons p rest ih =>
      obtain ⟨k2, w⟩ := p
      by_cases h : k2 = k
      · simp [mapSet, h, mapGet]
      · simp [mapSet, h, mapGet, ih]

theorem mapGet_mapSet_ne (m : Registry) (k key : UserId) (v : List SessionId)
    (h : key ≠ k) : mapGet (mapSet m k v) key = mapGet m key := by
  induction m with
  | nil => simp [mapSet, mapGet, Ne.symm h]
  | cons p rest ih =>
      obtain ⟨k2, w⟩ := p
      by_cases h2 : k2 = k
      · subst h2
        simp [mapSet, mapGet, Ne.symm h]
      · simp [mapSet, h2, mapGet, ih]

theorem mapGet_mapDelete_ne (m : Registry) (k key : UserId)
    (h : key ≠ k) : mapGet (mapDelete m k) key = mapGet m key := by
  induction m with
  | nil => simp [mapDelete]
  | cons p rest ih =>
      obtain ⟨k2, w⟩ := p
      by_cases h2 : k2 = k
      · subst h2
        simp [mapDelete, mapGet, Ne.symm h]
      · simp [mapDelete, h2, mapGet, ih]

theorem mapGet_eq_none_of_not_mem_keys (m : Registry) (k : UserId)
    (h : k ∉ m.map Prod.fst) : mapGet m k = none := by
  induction m with
  | nil => simp [mapGet]
  | cons p rest ih =>
      obtain ⟨k2, w⟩ := p
      simp only [List.map_cons, List.mem_cons] at h
      push_neg at h
      simp [mapGet, Ne.symm h.1, ih h.2]

theorem mapGet_mapDelete_self (m : Registry) (k : UserId)
    (h : keysNodup m) : mapGet (mapDelete m k) k = none := by
  induction m with
  | nil => simp [mapDelete, mapGet]
  | cons p rest ih =>
      obtain ⟨k2, w⟩ := p
      simp only [keysNodup, List.map_cons, List.nodup_cons] at h
      by_cases h2 : k2 = k
      · subst h2
        have h3 := mapGet_eq_none_of_not_mem_keys rest k2 h.1
        simpa [mapDelete] using h3
      · simp [mapDelete, h2, mapGet, ih h.2]

theorem mem_keys_mapSet (m : Registry) (k key : UserId) (v : List SessionId) :
    key ∈ (mapSet m k v).map Prod.fst ↔ key ∈ m.map Prod.fst ∨ key = k := by
  induction m with
  | nil => simp [mapSet]
  | cons p rest ih =>
      obtain ⟨k2, w⟩ := p
      by_cases h2 : k2 = k
      · subst h2
        have h3 : mapSet ((k2, w) :: rest) k2 v = (k2, v) :: rest := by
          simp [mapSet]
        rw [h3]
        simp only [List.map_cons, List.mem_cons]
        tauto
      · have h3 : mapSet ((k2, w) :: rest) k v = (k2, w) :: mapSet rest k v := by
          simp [mapSet, h2]
        rw [h3]
        simp only [List.map_cons, List.mem_cons, ih]
        tauto

theorem keysNodup_mapSet (m : Registry) (k : UserId) (v : List SessionId)
    (h : keysNodup m) : keysNodup (mapSet m k v) := by
  induction m with
  | nil => simp [keysNodup, mapSet]
  | cons p rest ih =>
      obtain ⟨k2, w⟩ := p
      simp only [keysNodup, List.map_cons, List.nodup_cons] at h
      by_cases h2 : k2 = k
      · subst h2
        have h3 : mapSet ((k2, w) :: rest) k2 v = (k2, v) :: rest := by
          simp [mapSet]
        rw [keysNodup, h3]
        simp only [List.map_cons, List.nodup_cons]
        exact h
      · have h3 : mapSet ((k2, w) :: rest) k v = (k2, w) :: mapSet rest k v := by
          simp [mapSet, h2]
        rw [keysNodup, h3]
        simp only [List.map_cons, List.nodup_cons]
        refine ⟨?_, ih h.2⟩
        rw [mem_keys_mapSet]
        push_neg
        exact ⟨h.1, h2⟩

theorem mem_keys_mapDelete (m : Registry) (k key : UserId)
    (h : key ∈ (mapDelete m k).map Prod.fst) : key ∈ m.map Prod.fst := by
  induction m with
  | nil => simp [mapDelete] at h
  | cons p rest ih =>
      obtain ⟨k2, w⟩ := p
      by_cases h2 : k2 = k
      · subst h2
        have h3 : mapDelete ((k2, w) :: rest) k2 = rest := by
          simp [mapDelete]
        rw [h3] at h
        simp [h]
      · have h3 : mapDelete ((k2, w) :: rest) k = (k2, w) :: mapDelete rest k := by
          simp [mapDelete, h2]
        rw [h3] at h
        simp only [List.map_cons, List.mem_cons] at h
        rcases h with h | h
        · simp [h]
        · simp [ih h]

theorem keysNodup_mapDelete (m : Registry) (k : UserId)
    (h : keysNodup m) : keysNodup (mapDelete m k) := by
  induction m with
  | nil => simp [keysNodup, mapDelete]
  | cons p rest ih =>
      obtain ⟨k2, w⟩ := p
      simp only [keysNodup, List.map_cons, List.nodup_cons] at h
      by_cases h2 : k2 = k
      · subst h2
        have h3 : mapDelete ((k2, w) :: rest) k2 = rest := by
          simp [mapDelete]
        rw [keysNodup, h3]
        exact h.2
      · have h3 : mapDelete ((k2, w) :: rest) k = (k2, w) :: mapDelete rest k := by
          simp [mapDelete, h2]
        rw [keysNodup, h3]
        simp only [List.map_cons, List.nodup_cons]
        exact ⟨fun hmem => h.1 (mem_keys_mapDelete rest k k2 hmem), ih h.2⟩

theorem mapSet_get_self (m : Registry) (k : UserId) (v : List SessionId)
    (h : mapGet m k = some v) : mapSet m k v = m := by
  induction m with
  | nil => simp [mapGet] at h
  | cons p rest ih =>
      obtain ⟨k2, w⟩ := p
      by_cases h2 : k2 = k
      · subst h2
        simp only [mapGet, if_pos] at h
        obtain rfl := Option.some.inj h
        simp [mapSet]
      · simp only [mapGet, if_neg h2] at h
        simp [mapSet, h2, ih h]

theorem mapGet_mem (m : Registry) (k : UserId) (v : List SessionId)
    (h : mapGet m k = some v) : (k, v) ∈ m := by
  induction m with
  | nil => simp [mapGet] at h
  | cons p rest ih =>
      obtain ⟨k2, w⟩ := p
      by_cases h2 : k2 = k
      · subst h2
        simp only [mapGet, if_pos] at h
        obtain rfl := Option.some.inj h
        exact List.mem_cons_self _ _
      · simp only [mapGet, if_neg h2] at h
        exact List.mem_cons_of_mem _ (ih h)

/-! Lemmas about removeFirst. -/

theorem removeFirst_not_mem (l : List SessionId) (s : SessionId)
    (h : s ∉ l) : removeFirst l s = l := by
  induction l with
  | nil => rfl
  | cons x xs ih =>
      simp only [List.mem_cons] at h
      push_neg at h
      simp [removeFirst, Ne.symm h.1, ih h.2]

theorem not_mem_removeFirst_of_count_le_one (l : List SessionId) (s : SessionId)
    (h : l.count s ≤ 1) : s ∉ removeFirst l s := by
  induction l with
  | nil => simp [removeFirst]
  | cons x xs ih =>
      by_cases h2 : x = s
      · subst h2
        simp only [List.count_cons, beq_self_eq_true, if_true] at h
        have h3 : xs.count x = 0 := by omega
        rw [removeFirst, if_pos rfl]
        exact List.count_eq_zero.mp h3
      · have h4 : xs.count s ≤ 1 := by
          simp only [List.count_cons, beq_iff_eq, if_neg h2] at h
          omega
        rw [removeFirst, if_neg h2]
        simp only [List.mem_cons]
        push_neg
        exact ⟨fun hs => h2 hs.symm, ih h4⟩

/-! Lemmas about broadcast. -/

theorem broadcast_mem (reg : Registry) (isOpen : SessionId → Bool)
    (uids : List UserId) (ev : OutEvent) (p : Send)
    (h : p ∈ broadcast reg isOpen uids ev) : p.2 = ev ∧ isOpen p.1 = true := by
  rw [broadcast, List.mem_flatMap] at h
  obtain ⟨uid, -, hp⟩ := h
  cases heq : mapGet reg uid with
  | none => rw [heq] at hp; simp at hp
  | some l =>
      rw [heq] at hp
      simp only [List.mem_map] at hp
      obtain ⟨ws2, hws2, rfl⟩ := hp
      exact ⟨rfl, (List.mem_filter.mp hws2).2⟩

theorem count_pair_map (l : List SessionId) (s : SessionId) (ev : OutEvent) :
    (l.map (fun x => (x, ev))).count (s, ev) = l.count s := by
  induction l with
  | nil => rfl
  | cons x xs ih => simp [List.count_cons, ih, Prod.ext_iff]

theorem broadcast_single (reg : Registry) (isOpen : SessionId → Bool)
    (u : UserId) (ev : OutEvent) :
    broadcast reg isOpen [u] ev =
      (match mapGet reg u with
       | some l => (l.filter isOpen).map (fun ws => (ws, ev))
       | none => []) := by
  simp [broadcast]

/-! Lemmas about the presence audience. -/

theorem mem_setAdd (l : List UserId) (x a : UserId) :
    a ∈ setAdd l x ↔ a ∈ l ∨ a = x := by
  unfold setAdd
  by_cases h : x ∈ l
  · rw [if_pos h]
    constructor
    · exact Or.inl
    · rintro (h2 | rfl)
      · exact h2
      · exact h
  · rw [if_neg h]
    simp [List.mem_append]

theorem nodup_setAdd (l : List UserId) (x : UserId)
    (h : l.Nodup) : (setAdd l x).Nodup := by
  unfold setAdd
  by_cases h2 : x ∈ l
  · rwa [if_pos h2]
  · rw [if_neg h2]
    simp [List.nodup_append, h, h2]

theorem mem_addConvMembers (u a : UserId) (conv : List UserId) :
    ∀ acc, a ∈ addConvMembers u acc conv ↔ a ∈ acc ∨ (a ∈ conv ∧ a ≠ u) := by
  induction conv with
  | nil => intro acc; simp [addConvMembers]
  | cons m ms ih =>
      intro acc
      show a ∈ addConvMembers u (if m ≠ u then setAdd acc m else acc) ms ↔ _
      rw [ih]
      by_cases hmu : m = u
      · subst hmu
        simp only [ne_eq, not_true_eq_false, if_false, List.mem_cons]
        constructor
        · rintro (h | h)
          · exact Or.inl h
          · exact Or.inr ⟨Or.inr h.1, h.2⟩
        · rintro (h | ⟨h1 | h1, h2⟩)
          · exact Or.inl h
          · exact absurd h1 h2
          · exact Or.inr ⟨h1, h2⟩
      · rw [if_pos hmu]
        rw [mem_setAdd]
        simp only [List.mem_cons]
        constructor
        · rintro ((h | rfl) | h)
          · exact Or.inl h
          · exact Or.inr ⟨Or.inl rfl, hmu⟩
          · exact Or.inr ⟨Or.inr h.1, h.2⟩
        · rintro (h | ⟨rfl | h1, h2⟩)
          · exact Or.inl (Or.inl h)
          · exact Or.inl (Or.inr rfl)
          · exact Or.inr ⟨h1, h2⟩

theorem nodup_addConvMembers (u : UserId) (conv : List UserId) :
    ∀ acc, acc.Nodup → (addConvMembers u acc conv).Nodup := by
  induction conv with
  | nil => intro acc h; exact h
  | cons m ms ih =>
      intro acc h
      show (addConvMembers u (if m ≠ u then setAdd acc m else acc) ms).Nodup
      apply ih
      by_cases hmu : m = u
      · simpa [hmu] using h
      · rw [if_pos hmu]
        exact nodup_setAdd acc m h

theorem mem_foldl_addConvMembers (u a : UserId) (convs : List (List UserId)) :
    ∀ acc, a ∈ convs.foldl (addConvMembers u) acc ↔
      a ∈ acc ∨ ∃ c ∈ convs, a ∈ c ∧ a ≠ u := by
  induction convs with
  | nil => intro acc; simp
  | cons c cs ih =>
      intro acc
      rw [List.foldl_cons, ih, mem_addConvMembers]
      simp only [List.mem_cons]
      constructor
      · rintro ((h | h) | ⟨c2, hc2, h⟩)
        · exact Or.inl h
        · exact Or.inr ⟨c, Or.inl rfl, h⟩
        · exact Or.inr ⟨c2, Or.inr hc2, h⟩
      · rintro (h | ⟨c2, rfl | hc2, h⟩)
        · exact Or.inl (Or.inl h)
        · exact Or.inl (Or.inr h)
        · exact Or.inr ⟨c2, hc2, h⟩

theorem mem_presenceAudience (env : Env) (u a : UserId) :
    a ∈ presenceAudience env u ↔
      (∃ c ∈ env.userConversations u, a ∈ c) ∧ a ≠ u := by
  rw [presenceAudience, mem_foldl_addConvMembers]
  simp only [List.not_mem_nil, false_or]
  constructor
  · rintro ⟨c, hc, h1, h2⟩
    exact ⟨⟨c, hc, h1⟩, h2⟩
  · rintro ⟨⟨c, hc, h1⟩, h2⟩
    exact ⟨c, hc, h1, h2⟩

theorem nodup_foldl_addConvMembers (u : UserId) (convs : List (List UserId)) :
    ∀ acc, acc.Nodup → (convs.foldl (addConvMembers u) acc).Nodup := by
  induction convs with
  | nil => intro acc h; exact h
  | cons c cs ih =>
      intro acc h
      rw [List.foldl_cons]
      exact ih _ (nodup_addConvMembers u c acc h)

theorem nodup_presenceAudience (env : Env) (u : UserId) :
    (presenceAudience env u).Nodup :=
  nodup_foldl_addConvMembers u _ [] List.nodup_nil

/-! The registry as an abstract sequence of add/remove operations, for the
registry-occupancy invariant. An add is the registration a successful auth
event performs; a remove is the cleanup a close of a session bound to that
user performs. -/

/-- One abstract registry operation. -/
inductive RegOp where
  | add (userId : UserId) (ws : SessionId)
  | remove (userId : UserId) (ws : SessionId)
deriving DecidableEq, Repr

/-- Applying one operation to the registry, exactly as the auth case and
the close handler mutate the clients map. -/
def applyOp (reg : Registry) : RegOp → Registry
  | .add u s => addSession reg u s
  | .remove u s => removeSession reg u s

/-- The registry after a whole sequence of operations, starting from the
empty map the server starts with. -/
def applyOps (ops : List RegOp) : Registry := ops.foldl applyOp []

/-- Modelled from the spec: the net effect of one operation on one user's
abstract session list — an add appends the session, a remove deletes one
matching occurrence. -/
def specStep (u : UserId) (acc : List SessionId) : RegOp → List SessionId
  | .add u2 s => if u2 = u then acc ++ [s] else acc
  | .remove u2 s => if u2 = u then removeFirst acc s else acc

/-- Modelled from the spec: the sessions the net effect of a sequence of
registrations and removals leaves for a user. -/
def specSessions (ops : List RegOp) (u : UserId) : List SessionId :=
  ops.foldl (specStep u) []

/-- The registry refines a per-user session-list function: the keys are
distinct and each user's entry is exactly its function value, with the
entry absent exactly when that value is empty. -/
def Tracks (reg : Registry) (f : UserId → List SessionId) : Prop :=
  keysNodup reg ∧ ∀ u, mapGet reg u = if f u = [] then none else some (f u)

theorem tracks_addSession (reg : Registry) (f : UserId → List SessionId)
    (u : UserId) (s : SessionId) (h : Tracks reg f) :
    Tracks (addSession reg u s) (fun v => if u = v then f v ++ [s] else f v) := by
  obtain ⟨hk, hget⟩ := h
  have harg : ((mapGet reg u).getD []) = f u := by
    rw [hget u]
    by_cases hu : f u = [] <;> simp [hu]
  have hadd : addSession reg u s = mapSet reg u (f u ++ [s]) := by
    rw [addSession, harg]
  rw [hadd]
  refine ⟨keysNodup_mapSet reg u _ hk, fun v => ?_⟩
  by_cases hv : u = v
  · subst hv
    simp [mapGet_mapSet_self]
  · rw [mapGet_mapSet_ne reg u v _ (Ne.symm hv), hget v]
    simp [hv]

theorem tracks_removeSession (reg : Registry) (f : UserId → List SessionId)
    (u : UserId) (s : SessionId) (h : Tracks reg f) :
    Tracks (removeSession reg u s)
      (fun v => if u = v then removeFirst (f v) s else f v) := by
  obtain ⟨hk, hget⟩ := h
  by_cases hu : f u = []
  · have hnone : mapGet reg u = none := by rw [hget u, if_pos hu]
    have hrm : removeSession reg u s = reg := by rw [removeSession, hnone]
    rw [hrm]
    refine ⟨hk, fun v => ?_⟩
    by_cases hv : u = v
    · subst hv
      simp [hget u, hu, removeFirst]
    · rw [hget v]
      simp [hv]
  · have hsome : mapGet reg u = some (f u) := by rw [hget u, if_neg hu]
    by_cases hrem : removeFirst (f u) s = []
    · have hrm : removeSession reg u s = mapDelete reg u := by
        rw [removeSession, hsome]
        simp [hrem]
      rw [hrm]
      refine ⟨keysNodup_mapDelete reg u hk, fun v => ?_⟩
      by_cases hv : u = v
      · subst hv
        rw [mapGet_mapDelete_self reg u hk]
        simp [hrem]
      · rw [mapGet_mapDelete_ne reg u v (Ne.symm hv), hget v]
        simp [hv]
    · have hrm : removeSession reg u s = mapSet reg u (removeFirst (f u) s) := by
        rw [removeSession, hsome]
        simp only []
        rw [if_neg (by simpa [List.length_eq_zero] using hrem)]
      rw [hrm]
      refine ⟨keysNodup_mapSet reg u _ hk, fun v => ?_⟩
      by_cases hv : u = v
      · subst hv
        rw [mapGet_mapSet_self]
        simp [hrem]
      · rw [mapGet_mapSet_ne reg u v _ (Ne.symm hv), hget v]
        simp [hv]

theorem tracks_foldl (ops : List RegOp) :
    ∀ (reg : Registry) (f : UserId → List SessionId), Tracks reg f →
      Tracks (ops.foldl applyOp reg) (fun v => ops.foldl (specStep v) (f v)) := by
  induction ops with
  | nil => intro reg f h; exact h
  | cons op ops ih =>
      intro reg f h
      have hstep : Tracks (applyOp reg op) (fun v => specStep v (f v) op) := by
        cases op with
        | add u s => exact tracks_addSession reg f u s h
        | remove u s => exact tracks_removeSession reg f u s h
      have h2 := ih (applyOp reg op) _ hstep
      simpa [List.foldl_cons] using h2

theorem tracks_applyOps (ops : List RegOp) :
    Tracks (applyOps ops) (fun u => specSessions ops u) := by
  have h0 : Tracks [] (fun _ => ([] : List SessionId)) := by
    refine ⟨by simp [keysNodup], fun u => by simp [mapGet]⟩
  exact tracks_foldl ops [] _ h0

/-! Further broadcast lemmas. -/

theorem broadcast_cons (reg : Registry) (isOpen : SessionId → Bool)
    (v : UserId) (vs : List UserId) (ev : OutEvent) :
    broadcast reg isOpen (v :: vs) ev =
      (match mapGet reg v with
       | some l2 => (l2.filter isOpen).map (fun ws => (ws, ev))
       | none => []) ++ broadcast reg isOpen vs ev := by
  simp [broadcast]

theorem broadcast_nil_reg (isOpen : SessionId → Bool) (uids : List UserId)
    (ev : OutEvent) : broadcast [] isOpen uids ev = [] := by
  induction uids with
  | nil => rfl
  | cons v vs ih =>
      rw [broadcast_cons, ih]
      simp [mapGet]

theorem broadcast_count_zero (reg : Registry) (isOpen : SessionId → Bool)
    (ev : OutEvent) (s : SessionId) :
    ∀ uids : List UserId,
      (∀ v ∈ uids, ∀ l2, mapGet reg v = some l2 → s ∉ l2 ∨ isOpen s = false) →
      (broadcast reg isOpen uids ev).count (s, ev) = 0 := by
  intro uids
  induction uids with
  | nil => intro h; rfl
  | cons v vs ih =>
      intro h
      rw [broadcast_cons, List.count_append,
        ih (fun v2 hv2 => h v2 (List.mem_cons_of_mem _ hv2))]
      cases hl : mapGet reg v with
      | none => rfl
      | some l2 =>
          simp only []
          rw [count_pair_map]
          refine Nat.add_eq_zero.mpr ⟨List.count_eq_zero.mpr ?_, rfl⟩
          intro hmem
          obtain ⟨hm1, hm2⟩ := List.mem_filter.mp hmem
          rcases h v (List.mem_cons_self v vs) l2 hl with hnm | hcl
          · exact hnm hm1
          · rw [hcl] at hm2
            exact Bool.false_ne_true hm2

theorem broadcast_count_unique (reg : Registry) (isOpen : SessionId → Bool)
    (ev : OutEvent) (s : SessionId) :
    ∀ (uids : List UserId) (u : UserId) (l : List SessionId),
      uids.Nodup → u ∈ uids → mapGet reg u = some l → l.Nodup → s ∈ l →
      isOpen s = true →
      (∀ v ∈ uids, v ≠ u → ∀ l2, mapGet reg v = some l2 → s ∉ l2) →
      (broadcast reg isOpen uids ev).count (s, ev) = 1 := by
  intro uids
  induction uids with
  | nil => intro u l _ hmem; simp at hmem
  | cons v vs ih =>
      intro u l hnd hmem hl hln hs hopen honly
      rw [List.nodup_cons] at hnd
      rw [broadcast_cons, List.count_append]
      rcases List.mem_cons.mp hmem with rfl | hmem2
      · have hhead : ((match mapGet reg u with
            | some l2 => (l2.filter isOpen).map (fun ws => (ws, ev))
            | none => ([] : List Send))).count (s, ev) = 1 := by
          rw [hl]
          simp only []
          rw [count_pair_map]
          exact List.count_eq_one_of_mem (hln.filter isOpen)
            (List.mem_filter.mpr ⟨hs, hopen⟩)
        have htail : (broadcast reg isOpen vs ev).count (s, ev) = 0 := by
          refine broadcast_count_zero reg isOpen ev s vs ?_
          intro v2 hv2 l2 hl2
          have hv2u : v2 ≠ u := fun h => hnd.1 (h ▸ hv2)
          exact Or.inl (honly v2 (List.mem_cons_of_mem _ hv2) hv2u l2 hl2)
        rw [hhead, htail]
      · have hvu : v ≠ u := fun h => hnd.1 (h ▸ hmem2)
        have hhead : ((match mapGet reg v with
            | some l2 => (l2.filter isOpen).map (fun ws => (ws, ev))
            | none => ([] : List Send))).count (s, ev) = 0 := by
          cases hl2 : mapGet reg v with
          | none => rfl
          | some l2 =>
              simp only []
              rw [count_pair_map]
              refine List.count_eq_zero.mpr ?_
              intro hmem3
              exact honly v (List.mem_cons_self v vs) hvu l2 hl2
                (List.mem_filter.mp hmem3).1
        have htail : (broadcast reg isOpen vs ev).count (s, ev) = 1 :=
          ih u l hnd.2 hmem2 hl hln hs hopen
            (fun v2 hv2 => honly v2 (List.mem_cons_of_mem _ hv2))
        rw [hhead, htail]

/-! The close handler on a session that is not registered for its user. -/

/-- Registry well-formedness (always true for reachable registries, by the
tracking invariant): distinct keys and no empty session list. -/
def WFReg (reg : Registry) : Prop :=
  keysNodup reg ∧ ∀ p ∈ reg, p.2 ≠ ([] : List SessionId)

theorem handleClose_not_present (env : Env) (reg : Registry)
    (conn : ConnState) (ws : SessionId) (isOpen : SessionId → Bool)
    (u : UserId) (hu : conn.currentUserId = some u)
    (hne : ∀ l, mapGet reg u = some l → ws ∉ l ∧ l ≠ []) :
    handleClose env reg conn ws isOpen =
      { registry := reg, sends := [], effects := [] } := by
  simp only [handleClose, hu]
  cases hl : mapGet reg u with
  | none => rfl
  | some l =>
      obtain ⟨hws, hnil⟩ := hne l hl
      simp only [removeFirst_not_mem l ws hws]
      rw [if_neg (by simpa [List.length_eq_zero] using hnil)]
      rw [mapSet_get_self reg u l hl]

/-! A concrete collaborator environment for witnesses and counterexamples:
alice and bob share conversation c1; tokA resolves to alice and tokB to
bob; message persistence always succeeds. -/

def envC : Env where
  verifyToken := fun t =>
    if t = "tokA" then some "alice" else if t = "tokB" then some "bob" else none
  getUserById := fun uid =>
    if uid = "alice" then some ⟨"alice", "Alice"⟩
    else if uid = "bob" then some ⟨"bob", "Bob"⟩ else none
  userConversations := fun uid =>
    if uid = "alice" then [["alice", "bob"]]
    else if uid = "bob" then [["alice", "bob"]] else []
  conversationMembers := fun cid => if cid = "c1" then ["alice", "bob"] else []
  sendMessage := fun cid sender content _ _ _ => some ⟨"m1", cid, sender, content⟩

/-! The claims. -/

/-- C1: for every sequence of session registrations (successful auth
events) and session removals (connection closes), a user identity is a key
of the Session Registry iff the net effect of the sequence leaves at least
one session for that user; an entry whose session list becomes empty is
deleted from the mapping, so the registry entry is exactly the net session
list whenever that list is nonempty and absent otherwise, and isOnline
(key existence) is true iff at least one session remains. -/
theorem claim1_registry_occupancy (ops : List RegOp) (u : UserId) :
    (isOnline (applyOps ops) u = true ↔ specSessions ops u ≠ []) ∧
    mapGet (applyOps ops) u =
      (if specSessions ops u = [] then none else some (specSessions ops u)) := by
  obtain ⟨-, hget⟩ := tracks_applyOps ops
  refine ⟨?_, hget u⟩
  rw [isOnline, hget u]
  by_cases h2 : specSessions ops u = [] <;> simp [h2]

/-- C2: broadcast delivers the serialization of one single event value —
so every target session receives the identical serialized payload — and
targets only currently-open sessions; for a recipient set containing u,
whose session list holds s only under u, an open session s receives the
payload exactly once, and a session whose transport is not open receives
nothing (skipped silently: broadcast produces no error and no state
change, being a pure function of the registry). In particular with the
singleton recipient set, every open session of u is attempted exactly
once. -/
theorem claim2_broadcast_delivery (reg : Registry) (isOpen : SessionId → Bool)
    (uids : List UserId) (ev : OutEvent) (u : UserId) (l : List SessionId)
    (s : SessionId)
    (hnd : uids.Nodup) (hmem : u ∈ uids) (hl : mapGet reg u = some l)
    (hln : l.Nodup) (hs : s ∈ l) (hopen : isOpen s = true)
    (honly : ∀ v ∈ uids, v ≠ u → ∀ l2, mapGet reg v = some l2 → s ∉ l2) :
    (∀ p ∈ broadcast reg isOpen uids ev,
        serializeOut p.2 = serializeOut ev ∧ isOpen p.1 = true) ∧
    (broadcast reg isOpen uids ev).count (s, ev) = 1 ∧
    (∀ s2, isOpen s2 = false →
        (broadcast reg isOpen uids ev).count (s2, ev) = 0) := by
  refine ⟨?_, ?_, ?_⟩
  · intro p hp
    have h2 := broadcast_mem reg isOpen uids ev p hp
    exact ⟨by rw [h2.1], h2.2⟩
  · exact broadcast_count_unique reg isOpen ev s uids u l hnd hmem hl hln hs
      hopen honly
  · intro s2 h2
    exact broadcast_count_zero reg isOpen ev s2 uids
      (fun v _ l2 _ => Or.inr h2)

/-- Witness for C2 at a concrete registry: alice has open sessions 1 and
2; broadcasting to the singleton set attempts session 1 exactly once. -/
theorem claim2_witness :
    (broadcast [("alice", [1, 2])] (fun _ => true) ["alice"]
        OutEvent.pong).count (1, OutEvent.pong) = 1 :=
  (claim2_broadcast_delivery [("alice", [1, 2])] (fun _ => true) ["alice"]
      OutEvent.pong "alice" [1, 2] 1 (by decide) (by decide) (by decide)
      (by decide) (by decide) rfl
      (fun v hv hne _ _ => absurd (List.mem_singleton.mp hv) hne)).2.1

/-- C3 counterexample: the claim asserts that in the Unauthenticated state
a typing event, like a message event, yields an explicit "not
authenticated" error response to the session; on the code the typing guard
returns silently, so the handler produces no outbound event at all. -/
theorem claim3_counterexample :
    (handleMessage envC [] ⟨false, none⟩ 0 (fun _ => true)
        (InMsg.typing "c1" true)).sends = [] := rfl

/-- C3 (amended): in the Unauthenticated state an inbound message event
yields exactly one explicit "Not authenticated" error response to that
session only, and an inbound typing event is dropped silently with no
response; in both cases there is no state change, no fanout to any other
session, no external effect and no change to the Session Registry, so in
particular no new_message broadcast reaches anyone. -/
theorem claim3_unauthenticated_guard (env : Env) (reg : Registry)
    (conn : ConnState) (ws : SessionId) (isOpen : SessionId → Bool)
    (cid content : String) (mt fu fn : Option String) (ist : Bool)
    (h : conn.authenticated = false) :
    handleMessage env reg conn ws isOpen (InMsg.message cid content mt fu fn) =
      { registry := reg, conn := conn
        sends := [(ws, OutEvent.errorEvent "Not authenticated")]
        effects := [] } ∧
    handleMessage env reg conn ws isOpen (InMsg.typing cid ist) =
      { registry := reg, conn := conn, sends := [], effects := [] } := by
  obtain ⟨a, cu⟩ := conn
  obtain rfl : a = false := h
  cases cu <;> exact ⟨rfl, rfl⟩

/-- Witness for C3 (amended) on a fresh unauthenticated connection. -/
theorem claim3_witness :
    handleMessage envC [] ⟨false, none⟩ 0 (fun _ => true)
        (InMsg.message "c1" "hi" none none none) =
      { registry := [], conn := ⟨false, none⟩
        sends := [(0, OutEvent.errorEvent "Not authenticated")]
        effects := [] } ∧
    handleMessage envC [] ⟨false, none⟩ 0 (fun _ => true)
        (InMsg.typing "c1" true) =
      { registry := [], conn := ⟨false, none⟩, sends := [], effects := [] } :=
  claim3_unauthenticated_guard envC [] ⟨false, none⟩ 0 (fun _ => true)
    "c1" "hi" none none none true rfl

/-- C7: an inbound payload that fails to parse, lacks a type field, or
carries an unrecognized tag is swallowed: the handler (a total function
that never closes the transport — the source wraps the body in try/catch
and contains no close call) sends no outbound event to any session,
changes no registry state, changes no connection state and invokes no
external effect. -/
theorem claim7_malformed_ignored (env : Env) (reg : Registry)
    (conn : ConnState) (ws : SessionId) (isOpen : SessionId → Bool) :
    handleMessage env reg conn ws isOpen InMsg.malformed =
      { registry := reg, conn := conn, sends := [], effects := [] } ∧
    handleMessage env reg conn ws isOpen InMsg.unknownTag =
      { registry := reg, conn := conn, sends := [], effects := [] } :=
  ⟨rfl, rfl⟩

/-- C4: the offline presence transition is edge-triggered: when a session
bound to u closes and u's entry does not become empty, the close handler
emits nothing (and u stays online); when the removal empties the entry,
the handler's output is exactly one offline user_status broadcast and one
offline status write. Moreover, for a user authenticated on two sessions,
closing one leaves the user online with no offline event, and closing
both leaves isOnline false with exactly one offline user_status emission. -/
theorem claim4_offline_edge (env : Env) (reg : Registry) (conn : ConnState)
    (ws : SessionId) (isOpen : SessionId → Bool) (u : UserId)
    (l : List SessionId)
    (hu : conn.currentUserId = some u) (hl : mapGet reg u = some l) :
    (removeFirst l ws ≠ [] →
        handleClose env reg conn ws isOpen =
          { registry := mapSet reg u (removeFirst l ws)
            sends := [], effects := [] } ∧
        isOnline (mapSet reg u (removeFirst l ws)) u = true) ∧
    (removeFirst l ws = [] →
        handleClose env reg conn ws isOpen =
          { registry := mapDelete reg u
            sends := broadcast (mapDelete reg u) isOpen (presenceAudience env u)
              (OutEvent.userStatus u "offline")
            effects := [Effect.updateUserStatus u "offline"] }) ∧
    (∀ s1 s2 : SessionId,
        (handleClose env (addSession (addSession [] u s1) u s2)
            ⟨true, some u⟩ s1 isOpen).sends = [] ∧
        isOnline (handleClose env (addSession (addSession [] u s1) u s2)
            ⟨true, some u⟩ s1 isOpen).registry u = true ∧
        isOnline (handleClose env
            (handleClose env (addSession (addSession [] u s1) u s2)
              ⟨true, some u⟩ s1 isOpen).registry
            ⟨true, some u⟩ s2 isOpen).registry u = false ∧
        (handleClose env
            (handleClose env (addSession (addSession [] u s1) u s2)
              ⟨true, some u⟩ s1 isOpen).registry
            ⟨true, some u⟩ s2 isOpen).effects =
          [Effect.updateUserStatus u "offline"] ∧
        (handleClose env
            (handleClose env (addSession (addSession [] u s1) u s2)
              ⟨true, some u⟩ s1 isOpen).registry
            ⟨true, some u⟩ s2 isOpen).sends =
          broadcast [] isOpen (presenceAudience env u)
            (OutEvent.userStatus u "offline")) := by
  refine ⟨?_, ?_, ?_⟩
  · intro h
    constructor
    · simp only [handleClose, hu, hl]
      rw [if_neg (by simpa [List.length_eq_zero] using h)]
    · rw [isOnline, mapGet_mapSet_self]
      rfl
  · intro h
    simp only [handleClose, hu, hl]
    rw [if_pos (by simp [h])]
  · intro s1 s2
    have hstep : addSession (addSession [] u s1) u s2 = [(u, [s1, s2])] := by
      simp [addSession, mapGet, mapSet]
    have hclose1 : handleClose env [(u, [s1, s2])] ⟨true, some u⟩ s1 isOpen =
        { registry := [(u, [s2])], sends := [], effects := [] } := by
      simp [handleClose, mapGet, mapSet, removeFirst]
    have hclose2 : handleClose env [(u, [s2])] ⟨true, some u⟩ s2 isOpen =
        { registry := []
          sends := broadcast [] isOpen (presenceAudience env u)
            (OutEvent.userStatus u "offline")
          effects := [Effect.updateUserStatus u "offline"] } := by
      simp [handleClose, mapGet, mapDelete, removeFirst]
    rw [hstep, hclose1]
    simp only [hclose2]
    simp [isOnline, mapGet]

/-- Witness for C4: alice has sessions 1 and 2; closing session 1 emits
nothing and only shrinks the entry. -/
theorem claim4_witness :
    handleClose envC [("alice", [1, 2])] ⟨true, some "alice"⟩ 1
        (fun _ => true) =
      { registry := mapSet [("alice", [1, 2])] "alice" (removeFirst [1, 2] 1)
        sends := [], effects := [] } :=
  ((claim4_offline_edge envC [("alice", [1, 2])] ⟨true, some "alice"⟩ 1
      (fun _ => true) "alice" [1, 2] rfl (by decide)).1 (by decide)).1

/-- C5: the presence audience is exactly the deduplicated set of other
members across all of the user's conversations (the user excluded), and
every successful authentication — regardless of whether other sessions for
that user were already live, since the statement holds for every prior
registry — sends auth_success to the session and broadcasts the online
user_status event to exactly that audience; the offline transition
broadcasts the offline user_status event to the same audience. -/
theorem claim5_presence_audience (env : Env) (u : UserId) :
    (∀ a, a ∈ presenceAudience env u ↔
        ((∃ c ∈ env.userConversations u, a ∈ c) ∧ a ≠ u)) ∧
    (presenceAudience env u).Nodup ∧
    (∀ (reg : Registry) (conn : ConnState) (ws : SessionId)
        (isOpen : SessionId → Bool) (token : String),
        env.verifyToken token = some u →
        (handleMessage env reg conn ws isOpen (InMsg.auth token)).sends =
          (ws, OutEvent.authSuccess (env.getUserById u)) ::
            broadcast (addSession reg u ws) isOpen (presenceAudience env u)
              (OutEvent.userStatus u "online")) ∧
    (∀ (reg : Registry) (conn : ConnState) (ws : SessionId)
        (isOpen : SessionId → Bool) (l : List SessionId),
        conn.currentUserId = some u → mapGet reg u = some l →
        removeFirst l ws = [] →
        (handleClose env reg conn ws isOpen).sends =
          broadcast (mapDelete reg u) isOpen (presenceAudience env u)
            (OutEvent.userStatus u "offline")) := by
  refine ⟨mem_presenceAudience env u, nodup_presenceAudience env u, ?_, ?_⟩
  · intro reg conn ws isOpen token htok
    simp only [handleMessage, htok]
  · intro reg conn ws isOpen l hcu hl hrem
    simp only [handleClose, hcu, hl]
    rw [if_pos (by simp [hrem])]

/-- C6: the failing double-authentication input, evaluated on the code. A
session authenticates as alice (tokA), then re-authenticates as bob (tokB)
on the same connection: it is then registered under both identities at
once, and the later close removes it only from bob's entry, leaving alice
permanently online with a phantom session. -/
def authTwiceStep1 : HandlerResult :=
  handleMessage envC [] ⟨false, none⟩ 7 (fun _ => true) (InMsg.auth "tokA")

/-- The second auth on the same session, with a token resolving to bob. -/
def authTwiceStep2 : HandlerResult :=
  handleMessage envC authTwiceStep1.registry authTwiceStep1.conn 7
    (fun _ => true) (InMsg.auth "tokB")

/-- The close of that session after the two authentications. -/
def authTwiceClose : CloseResult :=
  handleClose envC authTwiceStep2.registry authTwiceStep2.conn 7 (fun _ => true)

/-- C6: after the two auth events the single session 7 is registered under
both alice and bob simultaneously, violating the one-identity binding; the
close then leaves the phantom registration under alice in place, so alice
remains online forever. -/
theorem claim6_double_identity_bug :
    7 ∈ ((mapGet authTwiceStep2.registry "alice").getD []) ∧
    7 ∈ ((mapGet authTwiceStep2.registry "bob").getD []) ∧
    ("alice" : UserId) ≠ "bob" ∧
    isOnline authTwiceClose.registry "alice" = true ∧
    7 ∈ ((mapGet authTwiceClose.registry "alice").getD []) ∧
    isOnline authTwiceClose.registry "bob" = false := by
  decide

/-- C8: removing a session that is not present for the user a connection
is bound to leaves the (well-formed) registry unchanged with no events and
no effects, and a second removal of the same session after a first one is
likewise a no-op; the handler is a total function, so no input raises. -/
theorem claim8_remove_idempotent (env : Env) (reg : Registry)
    (conn : ConnState) (ws : SessionId) (isOpen : SessionId → Bool)
    (u : UserId) (hu : conn.currentUserId = some u) (hwf : WFReg reg) :
    ((∀ l, mapGet reg u = some l → ws ∉ l) →
        handleClose env reg conn ws isOpen =
          { registry := reg, sends := [], effects := [] }) ∧
    ((∀ l, mapGet reg u = some l → l.count ws ≤ 1) →
        handleClose env (handleClose env reg conn ws isOpen).registry conn
            ws isOpen =
          { registry := (handleClose env reg conn ws isOpen).registry
            sends := [], effects := [] }) := by
  obtain ⟨hk, hnil⟩ := hwf
  constructor
  · intro h
    refine handleClose_not_present env reg conn ws isOpen u hu ?_
    intro l hl
    exact ⟨h l hl, hnil (u, l) (mapGet_mem reg u l hl)⟩
  · intro h
    cases hl : mapGet reg u with
    | none =>
        have hfirst : handleClose env reg conn ws isOpen =
            { registry := reg, sends := [], effects := [] } := by
          refine handleClose_not_present env reg conn ws isOpen u hu ?_
          intro l2 hl2
          rw [hl] at hl2
          cases hl2
        rw [hfirst]
        exact hfirst
    | some l =>
        by_cases hrem : removeFirst l ws = []
        · have hfirst : (handleClose env reg conn ws isOpen).registry =
              mapDelete reg u := by
            simp only [handleClose, hu, hl]
            rw [if_pos (by simp [hrem])]
          rw [hfirst]
          refine handleClose_not_present env (mapDelete reg u) conn ws isOpen
            u hu ?_
          intro l2 hl2
          rw [mapGet_mapDelete_self reg u hk] at hl2
          cases hl2
        · have hfirst : (handleClose env reg conn ws isOpen).registry =
              mapSet reg u (removeFirst l ws) := by
            simp only [handleClose, hu, hl]
            rw [if_neg (by simpa [List.length_eq_zero] using hrem)]
          rw [hfirst]
          refine handleClose_not_present env (mapSet reg u (removeFirst l ws))
            conn ws isOpen u hu ?_
          intro l2 hl2
          rw [mapGet_mapSet_self] at hl2
          obtain rfl := Option.some.inj hl2
          exact ⟨not_mem_removeFirst_of_count_le_one l ws (h l hl), hrem⟩

/-- Witness for C8: the connection is bound to bob, who has no entry in
the registry; the close is a no-op. -/
theorem claim8_witness :
    handleClose envC [("alice", [1])] ⟨true, some "bob"⟩ 5 (fun _ => true) =
      { registry := [("alice", [1])], sends := [], effects := [] } := by
  have hget : mapGet [("alice", [1])] "bob" = none := by decide
  refine (claim8_remove_idempotent envC [("alice", [1])] ⟨true, some "bob"⟩ 5
      (fun _ => true) "bob" rfl ⟨by simp [keysNodup], by decide⟩).1 ?_
  intro l hl
  rw [hget] at hl
  cases hl

/-- C9 counterexample: the claim lists auth_success, auth_error,
new_message, typing, user_status and pong as the only outbound tags; but a
message event on an unauthenticated session makes the core send a payload
whose tag is "error", which is not among the six. -/
theorem claim9_counterexample :
    (handleMessage envC [] ⟨false, none⟩ 0 (fun _ => true)
        (InMsg.message "c1" "hi" none none none)).sends =
      [(0, OutEvent.errorEvent "Not authenticated")] ∧
    outTag (OutEvent.errorEvent "Not authenticated") ∉
      ["auth_success", "auth_error", "new_message", "typing", "user_status",
        "pong"] :=
  ⟨rfl, by decide⟩

/-- C9 (amended): every outbound event the core sends — from any inbound
message handling turn and from any close handling turn — carries one of
the tags auth_success, auth_error, error, new_message, typing, user_status
or pong (the precondition-violation response uses the extra tag "error"),
with the fields fixed by its constructor. -/
theorem claim9_outbound_tags (env : Env) (reg : Registry) (conn : ConnState)
    (ws : SessionId) (isOpen : SessionId → Bool) (msg : InMsg) :
    (∀ p ∈ (handleMessage env reg conn ws isOpen msg).sends,
        outTag p.2 ∈ ["auth_success", "auth_error", "error", "new_message",
          "typing", "user_status", "pong"]) ∧
    (∀ p ∈ (handleClose env reg conn ws isOpen).sends,
        outTag p.2 ∈ ["auth_success", "auth_error", "error", "new_message",
          "typing", "user_status", "pong"]) := by
  constructor
  · intro p hp
    cases msg with
    | auth token =>
        cases htok : env.verifyToken token with
        | some uid =>
            simp only [handleMessage, htok] at hp
            rcases List.mem_cons.mp hp with rfl | hp2
            · simp [outTag]
            · rw [(broadcast_mem _ _ _ _ _ hp2).1]
              simp [outTag]
        | none =>
            simp only [handleMessage, htok, List.mem_singleton] at hp
            subst hp
            simp [outTag]
    | message cid content mt fu fn =>
        obtain ⟨a, cu⟩ := conn
        cases a with
        | false =>
            cases cu <;>
              · simp only [handleMessage, List.mem_singleton] at hp
                subst hp
                simp [outTag]
        | true =>
            cases cu with
            | none =>
                simp only [handleMessage, List.mem_singleton] at hp
                subst hp
                simp [outTag]
            | some senderId =>
                simp only [handleMessage] at hp
                cases hres : env.sendMessage cid senderId content
                    (jsOrText mt) fu fn with
                | some m =>
                    rw [hres] at hp
                    simp only [] at hp
                    rw [(broadcast_mem _ _ _ _ _ hp).1]
                    simp [outTag]
                | none =>
                    rw [hres] at hp
                    simp at hp
    | typing cid ist =>
        obtain ⟨a, cu⟩ := conn
        cases a with
        | false => cases cu <;> simp [handleMessage] at hp
        | true =>
            cases cu with
            | none => simp [handleMessage] at hp
            | some senderId =>
                simp only [handleMessage] at hp
                rw [(broadcast_mem _ _ _ _ _ hp).1]
                simp [outTag]
    | ping =>
        simp only [handleMessage, List.mem_singleton] at hp
        subst hp
        simp [outTag]
    | unknownTag => simp [handleMessage] at hp
    | malformed => simp [handleMessage] at hp
  · intro p hp
    cases hcu : conn.currentUserId with
    | none => simp [handleClose, hcu] at hp
    | some u =>
        simp only [handleClose, hcu] at hp
        cases hl : mapGet reg u with
        | none => rw [hl] at hp; simp at hp
        | some l =>
            rw [hl] at hp
            simp only [] at hp
            by_cases hlen : (removeFirst l ws).length = 0
            · rw [if_pos hlen] at hp
              simp only [] at hp
              rw [(broadcast_mem _ _ _ _ _ hp).1]
              simp [outTag]
            · rw [if_neg hlen] at hp
              simp at hp

/-- Witness for C9 (amended): the pong reply to a ping carries an allowed
tag. -/
theorem claim9_witness :
    outTag ((0 : SessionId), OutEvent.pong).2 ∈
      ["auth_success", "auth_error", "error", "new_message", "typing",
        "user_status", "pong"] :=
  (claim9_outbound_tags envC [] ⟨false, none⟩ 0 (fun _ => true)
      InMsg.ping).1 (0, OutEvent.pong) (by simp [handleMessage])

/-- C10: an authenticated session bound to user u may reference any
conversationId in a message or typing event: the message is persisted via
the collaborator and broadcast as new_message to that conversation's
current members, and the typing indicator is broadcast to the members
except the sender — all without any check that u is itself a member; the
hypothesis here states that u is NOT a member, and the filter removing the
sender then leaves the full member list untouched. -/
theorem claim10_no_membership_check (env : Env) (reg : Registry)
    (ws : SessionId) (isOpen : SessionId → Bool) (u : UserId)
    (cid content : String) (mt fu fn : Option String) (ist : Bool)
    (m : Message)
    (hnm : u ∉ env.conversationMembers cid)
    (hsend : env.sendMessage cid u content (jsOrText mt) fu fn = some m) :
    handleMessage env reg ⟨true, some u⟩ ws isOpen
        (InMsg.message cid content mt fu fn) =
      { registry := reg, conn := ⟨true, some u⟩
        sends := broadcast reg isOpen (env.conversationMembers cid)
          (OutEvent.newMessage m)
        effects := [Effect.persistMessage cid u content (jsOrText mt) fu fn] } ∧
    handleMessage env reg ⟨true, some u⟩ ws isOpen (InMsg.typing cid ist) =
      { registry := reg, conn := ⟨true, some u⟩
        sends := broadcast reg isOpen
          ((env.conversationMembers cid).filter (fun id => id != u))
          (OutEvent.typingEvent cid u ((env.getUserById u).map User.displayName)
            ist)
        effects := [] } ∧
    (env.conversationMembers cid).filter (fun id => id != u) =
      env.conversationMembers cid := by
  refine ⟨?_, rfl, ?_⟩
  · simp only [handleMessage, hsend]
  · refine List.filter_eq_self.mpr ?_
    intro a ha
    rw [bne_iff_ne]
    intro h
    exact hnm (h ▸ ha)

/-- Witness for C10: carol is not a member of conversation c1, yet her
message event is persisted and fanned out to the members of c1. -/
theorem claim10_witness :
    handleMessage envC [] ⟨true, some "carol"⟩ 3 (fun _ => true)
        (InMsg.message "c1" "hi" none none none) =
      { registry := [], conn := ⟨true, some "carol"⟩
        sends := broadcast [] (fun _ => true) (envC.conversationMembers "c1")
          (OutEvent.newMessage ⟨"m1", "c1", "carol", "hi"⟩)
        effects := [Effect.persistMessage "c1" "carol" "hi" "text" none none] } :=
  (claim10_no_membership_check envC [] 3 (fun _ => true) "carol" "c1" "hi"
      none none none true ⟨"m1", "c1", "carol", "hi"⟩ (by decide) rfl).1

end ChatterBox
